import Mathlib

set_option maxRecDepth 4000

/-!
Verification of the eitype repository (Wayland EI keyboard-input emulation).

This file is a shallow embedding of the core pipeline of `src/lib.rs`
(with `src/main.rs` as a secondary source where noted):

* keysym/character resolution: `keysym_to_char`, `find_keycode_for_char`;
* the static symbolic key table: `keyTable`, `keyToKeycode`
  (`build_key_to_keycode_map`);
* the action sequencer over an explicit session state: `type_char`,
  `type_text`, `press_key`, `hold_modifier`, `press_modifier`,
  `release_modifiers`, `execute_actions`, `close`;
* the flush retry loop: `flush_with_retry`;
* the timestamp source: `get_timestamp`.

Machine integers are modelled as `Nat`, with `u32` wraparound made explicit
where the source can underflow (`u32sub8`).  The transport is modelled as
an environment the session writes protocol requests into (`Event` list);
for the sequencer-level definitions flushes always succeed, while the
retry discipline of `flush_with_retry` is modelled separately against an
explicit schedule of flush outcomes.
-/

/-- Errors of the library, from `enum EiTypeError` (src/lib.rs:56-81).
Payload strings/chars carry the same data as the Rust variants. -/
inductive EiTypeError where
  | Connection : String → EiTypeError
  | Keymap : String → EiTypeError
  | UnknownKey : String → EiTypeError
  | Typing : String → EiTypeError
  | NoKeyboard : EiTypeError
  | CharNotFound : Char → EiTypeError
deriving DecidableEq

/-- Rust `char::from_u32`: `some` exactly for Unicode scalar values
(not a surrogate, at most 0x10FFFF). -/
def charFromU32 (n : Nat) : Option Char :=
  if n < 0xd800 then some (Char.ofNat n)
  else if 0xe000 ≤ n ∧ n < 0x110000 then some (Char.ofNat n)
  else none

/-- `keysym_to_char` (src/lib.rs:286-302): printable ASCII and Latin-1
keysyms map identically, keysyms at or above 0x1000000 are explicit
Unicode code points, and Return/Tab/Space keysyms map to their control
characters.  Everything else is unmapped. -/
def keysym_to_char (keysym : Nat) : Option Char :=
  if 0x20 ≤ keysym ∧ keysym ≤ 0x7e then charFromU32 keysym
  else if 0xa0 ≤ keysym ∧ keysym ≤ 0xff then charFromU32 keysym
  else if 0x1000000 ≤ keysym then charFromU32 (keysym - 0x1000000)
  else if keysym = 0xff0d then some (Char.ofNat 10)
  else if keysym = 0xff09 then some (Char.ofNat 9)
  else if keysym = 0x20 then some (Char.ofNat 32)
  else none

/-- The interface of a compiled xkb keymap that `find_keycode_for_char`
consumes (the calls it makes into `xkbcommon`, src/lib.rs:255-266). -/
structure Keymap where
  min_keycode : Nat
  max_keycode : Nat
  num_layouts_for_key : Nat → Nat
  num_levels_for_key : Nat → Nat → Nat
  key_get_syms_by_level : Nat → Nat → Nat → List Nat

/-- The inner `for sym in syms` loop of `find_keycode_for_char`
(src/lib.rs:268-277): does any keysym of the level convert to `ch`? -/
def symsHaveChar (ch : Char) (syms : List Nat) : Bool :=
  syms.any (fun sym => keysym_to_char sym == some ch)

/-- The `for level in 0..num_levels` loop (src/lib.rs:265-278): first level
in the given list whose keysyms contain `ch`. -/
def levelHit (ch : Char) (km : Keymap) (li kc : Nat) : List Nat → Option Nat
  | [] => none
  | l :: rest =>
      if symsHaveChar ch (km.key_get_syms_by_level kc li l) then some l
      else levelHit ch km li kc rest

/-- One keycode's worth of scanning (src/lib.rs:260-279): the level loop
runs only when `layout_index < num_layouts_for_key`. -/
def levelFor (ch : Char) (km : Keymap) (li kc : Nat) : Option Nat :=
  if li < km.num_layouts_for_key kc then
    levelHit ch km li kc (List.range (km.num_levels_for_key kc li))
  else none

/-- Rust release-mode `u32` subtraction `keycode_raw - 8`
(src/lib.rs:273): wraps modulo 2^32 when the operand is below 8
(in debug builds it would panic instead). -/
def u32sub8 (n : Nat) : Nat := (n + (4294967296 - 8)) % 4294967296

/-- The outer `for keycode_raw in min..=max` loop (src/lib.rs:258-280):
the first keycode with a matching level wins and is reported offset by 8
with `needs_shift` true exactly on level 1. -/
def keycodeScan (ch : Char) (km : Keymap) (li : Nat) : List Nat → Option (Nat × Bool)
  | [] => none
  | kc :: rest =>
      match levelFor ch km li kc with
      | some l => some (u32sub8 kc, l == 1)
      | none => keycodeScan ch km li rest

/-- The inclusive keycode range `min_keycode..=max_keycode`. -/
def keycodeRange (a b : Nat) : List Nat := List.range' a (b + 1 - a)

/-- `find_keycode_for_char` (src/lib.rs:250-283): scan the keymap for the
first keycode/level producing `ch` under the selected layout, or fail
with `CharNotFound`. -/
def find_keycode_for_char (ch : Char) (km : Keymap) (li : Nat) :
    Except EiTypeError (Nat × Bool) :=
  match keycodeScan ch km li (keycodeRange km.min_keycode km.max_keycode) with
  | some r => .ok r
  | none => .error (.CharNotFound ch)

/-- ASCII lowercasing of a character, Rust `char::to_ascii_lowercase`
(used by the keymap-less fallback of `type_char`, src/lib.rs:853). -/
def to_ascii_lowercase (c : Char) : Char :=
  if 65 ≤ c.toNat ∧ c.toNat ≤ 90 then Char.ofNat (c.toNat + 32) else c

/-- Lowercasing of a key name, Rust `str::to_lowercase`
(src/lib.rs:890,902,916).  Modelled as per-character ASCII lowercasing;
all names in the static key table are ASCII. -/
def lowerString (s : String) : String := String.mk (s.data.map to_ascii_lowercase)

/-- The entries inserted by `build_key_to_keycode_map` (src/lib.rs:170-247),
in insertion order.  All keys are distinct, so HashMap lookup agrees with
first-match lookup over this list. -/
def keyTable : List (String × Nat) :=
  [("shift", 42), ("lshift", 42), ("rshift", 54),
   ("ctrl", 29), ("control", 29), ("lctrl", 29), ("rctrl", 97),
   ("alt", 56), ("lalt", 56), ("ralt", 100), ("altgr", 100),
   ("super", 125), ("meta", 125), ("win", 125), ("lsuper", 125), ("rsuper", 126),
   ("escape", 1), ("esc", 1), ("return", 28), ("enter", 28), ("tab", 15),
   ("backspace", 14), ("delete", 111), ("insert", 110), ("home", 102),
   ("end", 107), ("pageup", 104), ("pagedown", 109), ("space", 57),
   ("capslock", 58), ("numlock", 69), ("scrolllock", 70),
   ("print", 99), ("printscreen", 99), ("pause", 119), ("menu", 127),
   ("up", 103), ("down", 108), ("left", 105), ("right", 106),
   ("f1", 59), ("f2", 60), ("f3", 61), ("f4", 62), ("f5", 63), ("f6", 64),
   ("f7", 65), ("f8", 66), ("f9", 67), ("f10", 68), ("f11", 69), ("f12", 70),
   ("1", 2), ("2", 3), ("3", 4), ("4", 5), ("5", 6), ("6", 7), ("7", 8),
   ("8", 9), ("9", 10), ("0", 11),
   ("a", 30), ("b", 48), ("c", 46), ("d", 32), ("e", 18), ("f", 33),
   ("g", 34), ("h", 35), ("i", 23), ("j", 36), ("k", 37), ("l", 38),
   ("m", 50), ("n", 49), ("o", 24), ("p", 25), ("q", 16), ("r", 19),
   ("s", 31), ("t", 20), ("u", 22), ("v", 47), ("w", 17), ("x", 45),
   ("y", 21), ("z", 44)]

/-- First-match lookup in an association list (HashMap `get` for a map
with distinct keys). -/
def lookupKey : List (String × Nat) → String → Option Nat
  | [], _ => none
  | (k, v) :: rest, s => if s = k then some v else lookupKey rest s

/-- The session's `key_to_keycode` field (src/lib.rs:612): always the
table built by `build_key_to_keycode_map`. -/
def keyToKeycode (s : String) : Option Nat := lookupKey keyTable s

/-- Key press/release direction (`reis` `KeyState`). -/
inductive KeySt where
  | press
  | released
deriving DecidableEq

/-- A protocol request emitted on the transport: key state changes,
frame commits, emulation bracketing and disconnect. -/
inductive Event where
  | key : Nat → KeySt → Event
  | frame : Event
  | startEmulating : Nat → Event
  | stopEmulating : Event
  | disconnect : Event
deriving DecidableEq

/-- The actions of `enum Action` (src/lib.rs:153-163; the Lean name avoids a Mathlib clash). -/
inductive EiAction where
  | type : String → EiAction
  | key : String → EiAction
  | modifierHold : String → EiAction
  | modifierPress : String → EiAction
deriving DecidableEq

/-- The mutable state of `struct EiType` (src/lib.rs:486-499) visible to
the sequencer, plus the ordered trace of protocol requests emitted so
far.  The transport itself (connection/device/keyboard handles) is not
state the sequencer branches on; flushes succeed in this model (the
retry discipline is modelled separately by `flush_with_retry`).
The inter-event `delay` sleeps are not observable in the trace. -/
structure Session where
  keymap : Option Keymap
  layout_index : Nat
  held_modifiers : List Nat
  sequence : Nat
  closed : Bool
  events : List Event

/-- `press_key_internal` (src/lib.rs:808-813): key press then a frame
commit. -/
def press_key_internal (s : Session) (kc : Nat) : Session :=
  { s with events := s.events ++ [Event.key kc .press, Event.frame] }

/-- `release_key_internal` (src/lib.rs:815-820): key release then a frame
commit. -/
def release_key_internal (s : Session) (kc : Nat) : Session :=
  { s with events := s.events ++ [Event.key kc .released, Event.frame] }

/-- `tap_key_internal` (src/lib.rs:822-832): press, then release (the
optional sleeps leave no trace). -/
def tap_key_internal (s : Session) (kc : Nat) : Session :=
  release_key_internal (press_key_internal s kc) kc

/-- The events a tap of `kc` appends. -/
def tapEvents (kc : Nat) : List Event :=
  [Event.key kc .press, Event.frame, Event.key kc .released, Event.frame]

/-- The shift-wrapped tap both branches of `type_char` perform
(src/lib.rs:840-850 and 857-867): when `needShift`, press the shift key
(the table's `shift` entry with default 42), tap the key, release
shift. -/
def shiftWrapTap (s : Session) (needShift : Bool) (kc : Nat) : Session :=
  let shiftKc := (keyToKeycode "shift").getD 42
  let s := if needShift then press_key_internal s shiftKc else s
  let s := tap_key_internal s kc
  if needShift then release_key_internal s shiftKc else s

/-- `type_char` (src/lib.rs:834-875).  With a keymap: resolve via
`find_keycode_for_char` and shift-wrap the tap as needed.  Without:
ASCII-lowercase the character, look it up in the static table, shift iff
the original character was an ASCII uppercase letter
(`is_ascii_uppercase`); otherwise `CharNotFound`. -/
def type_char (s : Session) (ch : Char) : Except EiTypeError Unit × Session :=
  match s.keymap with
  | some km =>
    match find_keycode_for_char ch km s.layout_index with
    | .error e => (.error e, s)
    | .ok (kc, needShift) => (.ok (), shiftWrapTap s needShift kc)
  | none =>
    match keyToKeycode (String.singleton (to_ascii_lowercase ch)) with
    | some kc => (.ok (), shiftWrapTap s ch.isUpper kc)
    | none => (.error (.CharNotFound ch), s)

/-- `type_text` (src/lib.rs:878-884): per-character loop, stopping at the
first error. -/
def type_text (s : Session) : List Char → Except EiTypeError Unit × Session
  | [] => (.ok (), s)
  | ch :: rest =>
    match type_char s ch with
    | (.ok _, s') => type_text s' rest
    | r => r

/-- `press_key` (src/lib.rs:887-896): resolve the name (lowercased) and
tap, or fail with `UnknownKey`. -/
def press_key (s : Session) (key_name : String) : Except EiTypeError Unit × Session :=
  match keyToKeycode (lowerString key_name) with
  | none => (.error (.UnknownKey key_name), s)
  | some kc => (.ok (), tap_key_internal s kc)

/-- `hold_modifier` (src/lib.rs:899-910): resolve, press (no release) and
push onto the held-modifier stack. -/
def hold_modifier (s : Session) (mod_name : String) : Except EiTypeError Unit × Session :=
  match keyToKeycode (lowerString mod_name) with
  | none => (.error (.UnknownKey mod_name), s)
  | some kc =>
    let s := press_key_internal s kc
    (.ok (), { s with held_modifiers := s.held_modifiers ++ [kc] })

/-- `press_modifier` (src/lib.rs:913-922): resolve and tap. -/
def press_modifier (s : Session) (mod_name : String) : Except EiTypeError Unit × Session :=
  match keyToKeycode (lowerString mod_name) with
  | none => (.error (.UnknownKey mod_name), s)
  | some kc => (.ok (), tap_key_internal s kc)

/-- Releasing a list of keycodes in order (the loop body of
`release_modifiers`). -/
def releaseLoop (s : Session) : List Nat → Session
  | [] => s
  | kc :: rest => releaseLoop (release_key_internal s kc) rest

/-- The release events emitted for a list of keycodes, in order. -/
def releaseEvents : List Nat → List Event
  | [] => []
  | kc :: rest => Event.key kc .released :: Event.frame :: releaseEvents rest

/-- `release_modifiers` (src/lib.rs:925-931): `drain(..)` empties the
stack up front, then the drained keycodes are released in reverse
(LIFO) order. -/
def release_modifiers (s : Session) : Except EiTypeError Unit × Session :=
  (.ok (), releaseLoop { s with held_modifiers := [] } s.held_modifiers.reverse)

/-- Dispatch of one action (the `match` in `execute_actions`,
src/lib.rs:937-952). -/
def execAction (s : Session) : EiAction → Except EiTypeError Unit × Session
  | .type text => type_text s text.data
  | .key key_name => press_key s key_name
  | .modifierHold mod_name => hold_modifier s mod_name
  | .modifierPress mod_name => press_modifier s mod_name

/-- The `for action in actions` loop of `execute_actions`: the `?`
operator returns at the first error, keeping the state mutated so far. -/
def executeLoop (s : Session) : List EiAction → Except EiTypeError Unit × Session
  | [] => (.ok (), s)
  | a :: rest =>
    match execAction s a with
    | (.ok _, s') => executeLoop s' rest
    | r => r

/-- `execute_actions` (src/lib.rs:934-958): run the action list; only
when every action succeeded does control reach the trailing
`release_modifiers` call — an error propagates out before it. -/
def execute_actions (s : Session) (actions : List EiAction) :
    Except EiTypeError Unit × Session :=
  match executeLoop s actions with
  | (.ok _, s') => release_modifiers s'
  | r => r

/-- `stop_emulating` (src/lib.rs:743-747): emits the stop request (the
serial comes from the connection; the sequence counter is not used). -/
def stop_emulating (s : Session) : Session :=
  { s with events := s.events ++ [Event.stopEmulating] }

/-- `start_emulating` (src/lib.rs:736-741): emits the start request
carrying the current sequence counter, then increments it. -/
def start_emulating (s : Session) : Session :=
  { s with events := s.events ++ [Event.startEmulating s.sequence],
           sequence := s.sequence + 1 }

/-- `close` (src/lib.rs:968-991): guarded by the `closed` flag; a first
call releases held modifiers, stops emulating and disconnects, a
repeated call returns immediately. -/
def close (s : Session) : Session :=
  if s.closed then s
  else
    let s := { s with closed := true }
    let s := (release_modifiers s).2
    let s := stop_emulating s
    { s with events := s.events ++ [Event.disconnect] }

/-- `Drop for EiType` (src/lib.rs:993-998): just calls `close`. -/
def dropSession (s : Session) : Session := close s

/-- The session fields as initialized by `from_stream`
(src/lib.rs:606-618): empty held-modifier stack, sequence counter 1, not
closed, nothing emitted yet.  `from_stream` does not touch the
process-wide timestamp epoch (the `START` static of `get_timestamp`,
src/lib.rs:305-309). -/
def from_stream_init (km : Option Keymap) (li : Nat) : Session :=
  { keymap := km, layout_index := li, held_modifiers := [], sequence := 1,
    closed := false, events := [] }

deriving instance DecidableEq for Except

/-- The observable outcome of `flush_with_retry`: the returned result and
the backoff sleeps performed, in order and in milliseconds. -/
structure RetryOutcome where
  result : Except EiTypeError Unit
  sleeps : List Nat
deriving DecidableEq

/-- The retry loop of `flush_with_retry` (src/lib.rs:761-806).  `flush n`
is the outcome of the n-th flush call (counting from 0): `none` for `Ok`,
`some (errno, msg)` for an error with that raw OS errno and display
message.  `budget` is `MAX_RETRIES - retries`, so the Rust guard
`retries > MAX_RETRIES` (after `retries += 1`) is `budget = 0`; the
recursion is structural on `budget`.  A sleep of the current delay is
recorded before each retry, and the delay then doubles, capped at
`MAX_DELAY_MS = 100`. -/
def flushRetryAux (flush : Nat → Option (Int × String)) :
    Nat → Nat → Nat → List Nat → RetryOutcome
  | budget, attempt, delayMs, sleeps =>
    match flush attempt with
    | none => ⟨.ok (), sleeps⟩
    | some (errno, msg) =>
      if errno ≠ 11 then ⟨.error (.Typing msg), sleeps⟩
      else
        match budget with
        | 0 =>
          ⟨.error (.Typing ("Socket buffer full after 50 retries: " ++ msg)), sleeps⟩
        | b + 1 =>
          flushRetryAux flush b (attempt + 1) (min (delayMs * 2) 100)
            (sleeps ++ [delayMs])

/-- `flush_with_retry` (src/lib.rs:761-806): 0 retries so far
(`budget = MAX_RETRIES = 50`), first flush is attempt 0, initial delay
`INITIAL_DELAY_MS = 1`, no sleeps yet. -/
def flush_with_retry (flush : Nat → Option (Int × String)) : RetryOutcome :=
  flushRetryAux flush 50 0 1 []

/-- `get_timestamp` (src/lib.rs:304-309).  The `START` cell is a
process-wide `static OnceLock<Instant>`: `none` if no call has happened
yet in the process, `some t0` once initialized.  `now` is the current
monotonic clock reading; the returned timestamp is the elapsed time
since the (possibly just-initialized) epoch, and the updated cell. -/
def get_timestamp (start : Option Nat) (now : Nat) : Nat × Option Nat :=
  match start with
  | none => (now - now, some now)
  | some t0 => (now - t0, some t0)

/-- The timestamps a run of frame commits at the given clock readings
produces, threading the `START` cell, together with the final cell. -/
def frameTimestamps (start : Option Nat) : List Nat → List Nat × Option Nat
  | [] => ([], start)
  | c :: cs =>
    let p := get_timestamp start c
    let q := frameTimestamps p.2 cs
    (p.1 :: q.1, q.2)


/-- A session with no compiled keymap (the fallback path of `type_char`),
as left by `from_stream` after `start_emulating` bumped the sequence
counter to 2 (event trace reset for readability of the statements). -/
def sFallback : Session :=
  { keymap := none, layout_index := 0, held_modifiers := [], sequence := 2,
    closed := false, events := [] }

/-- The session state after `sFallback` executed `ModifierHold "ctrl"`:
ctrl (keycode 29) pressed and held. -/
def sCtrlHeld : Session :=
  { keymap := none, layout_index := 0, held_modifiers := [29], sequence := 2,
    closed := false, events := [Event.key 29 .press, Event.frame] }

/-- A one-key keymap whose only keycode is 5, below the xkb-to-evdev
offset of 8; every level carries keysym 0x61 (letter a), so scanning
for a matches at keycode 5, level 0. -/
def kmLow : Keymap :=
  { min_keycode := 5, max_keycode := 5, num_layouts_for_key := fun _ => 1,
    num_levels_for_key := fun _ _ => 2, key_get_syms_by_level := fun _ _ _ => [0x61] }

/-- A small shift-capable keymap: xkb keycode 38 (evdev 30, the letter a
key) has keysym 0x61 at level 0 and 0x41 at level 1; all other keycodes
in 9..=48 are empty. -/
def kmShift : Keymap :=
  { min_keycode := 9, max_keycode := 48,
    num_layouts_for_key := fun _ => 1,
    num_levels_for_key := fun _ _ => 2,
    key_get_syms_by_level := fun kc _ l =>
      if kc = 38 then (if l = 0 then [0x61] else [0x41]) else [] }

/-- A flush schedule that reports would-block (errno 11) on the first
three attempts and succeeds on the fourth. -/
def flushWB3 : Nat → Option (Int × String) :=
  fun i => if i < 3 then some (11, "write would block") else none

/-- A flush schedule that always reports would-block (errno 11). -/
def alwaysWouldBlock : Nat → Option (Int × String) :=
  fun _ => some (11, "write would block")

lemma backoffDouble (j : Nat) : min (min (2 ^ j) 100 * 2) 100 = min (2 ^ (j + 1)) 100 := by
  rcases le_or_lt (2 ^ j) 100 with h | h
  · rw [min_eq_left h, pow_succ]
  · have h1 : min (2 ^ j) 100 = 100 := min_eq_right h.le
    have h2 : 100 ≤ 2 ^ (j + 1) := by
      rw [pow_succ]
      omega
    rw [h1, min_eq_right h2]
    omega

lemma flushRetryAux_ok (flush : Nat → Option (Int × String)) :
    ∀ (d b j : Nat) (sleeps : List Nat), d ≤ b →
    (∀ i, i < d → ∃ m, flush (j + i) = some (11, m)) →
    flush (j + d) = none →
    flushRetryAux flush b j (min (2 ^ j) 100) sleeps =
      ⟨.ok (), sleeps ++ (List.range d).map (fun i => min (2 ^ (j + i)) 100)⟩ := by
  intro d
  induction d with
  | zero =>
    intro b j sleeps _ _ hok
    rw [Nat.add_zero] at hok
    rw [flushRetryAux, hok]
    simp
  | succ d ih =>
    intro b j sleeps hdb hwb hok
    obtain ⟨m, hm⟩ := hwb 0 (by omega)
    rw [Nat.add_zero] at hm
    obtain ⟨b', rfl⟩ : ∃ b', b = b' + 1 := ⟨b - 1, by omega⟩
    rw [flushRetryAux, hm]
    simp only [ne_eq, not_true_eq_false, if_false, backoffDouble]
    have hrec := ih b' (j + 1) (sleeps ++ [min (2 ^ j) 100]) (by omega)
      (fun i hi => by
        obtain ⟨mm, hmm⟩ := hwb (i + 1) (by omega)
        exact ⟨mm, by rw [← hmm]; ring_nf⟩)
      (by rw [← hok]; ring_nf)
    rw [hrec]
    congr 1
    rw [List.append_assoc, List.singleton_append,
      List.range_succ_eq_map, List.map_cons, List.map_map]
    congr 1
    simp
    intro a _
    congr 1
    congr 1
    omega

lemma flushRetryAux_exhaust (flush : Nat → Option (Int × String)) :
    ∀ (b j : Nat) (sleeps : List Nat) (mlast : String),
    (∀ i, i < b → ∃ m, flush (j + i) = some (11, m)) →
    flush (j + b) = some (11, mlast) →
    flushRetryAux flush b j (min (2 ^ j) 100) sleeps =
      ⟨.error (.Typing ("Socket buffer full after 50 retries: " ++ mlast)),
       sleeps ++ (List.range b).map (fun i => min (2 ^ (j + i)) 100)⟩ := by
  intro b
  induction b with
  | zero =>
    intro j sleeps mlast _ hlast
    rw [Nat.add_zero] at hlast
    rw [flushRetryAux, hlast]
    simp
  | succ b ih =>
    intro j sleeps mlast hwb hlast
    obtain ⟨m, hm⟩ := hwb 0 (by omega)
    rw [Nat.add_zero] at hm
    rw [flushRetryAux, hm]
    simp only [ne_eq, not_true_eq_false, if_false, backoffDouble]
    have hrec := ih (j + 1) (sleeps ++ [min (2 ^ j) 100]) mlast
      (fun i hi => by
        obtain ⟨mm, hmm⟩ := hwb (i + 1) (by omega)
        exact ⟨mm, by rw [← hmm]; ring_nf⟩)
      (by rw [← hlast]; ring_nf)
    rw [hrec]
    congr 1
    rw [List.append_assoc, List.singleton_append,
      List.range_succ_eq_map, List.map_cons, List.map_map]
    congr 1
    simp
    intro a _
    congr 1
    congr 1
    omega

lemma flushRetryAux_fatal (flush : Nat → Option (Int × String)) :
    ∀ (d b j : Nat) (sleeps : List Nat) (e : Int) (m : String), d ≤ b →
    (∀ i, i < d → ∃ mm, flush (j + i) = some (11, mm)) →
    flush (j + d) = some (e, m) → e ≠ 11 →
    flushRetryAux flush b j (min (2 ^ j) 100) sleeps =
      ⟨.error (.Typing m),
       sleeps ++ (List.range d).map (fun i => min (2 ^ (j + i)) 100)⟩ := by
  intro d
  induction d with
  | zero =>
    intro b j sleeps e m _ _ hbad hne
    rw [Nat.add_zero] at hbad
    rw [flushRetryAux, hbad]
    simp [hne]
  | succ d ih =>
    intro b j sleeps e m hdb hwb hbad hne
    obtain ⟨mm, hm⟩ := hwb 0 (by omega)
    rw [Nat.add_zero] at hm
    obtain ⟨b', rfl⟩ : ∃ b', b = b' + 1 := ⟨b - 1, by omega⟩
    rw [flushRetryAux, hm]
    simp only [ne_eq, not_true_eq_false, if_false, backoffDouble]
    have hrec := ih b' (j + 1) (sleeps ++ [min (2 ^ j) 100]) e m (by omega)
      (fun i hi => by
        obtain ⟨m2, hm2⟩ := hwb (i + 1) (by omega)
        exact ⟨m2, by rw [← hm2]; ring_nf⟩)
      (by rw [← hbad]; ring_nf) hne
    rw [hrec]
    congr 1
    rw [List.append_assoc, List.singleton_append,
      List.range_succ_eq_map, List.map_cons, List.map_map]
    congr 1
    simp
    intro a _
    congr 1
    congr 1
    omega

lemma one_eq_min : (1 : Nat) = min (2 ^ 0) 100 := by decide

/-- Claim C3: `flush_with_retry` retries only on raw errno 11
(would-block): a flush error with any other errno, arriving at any
attempt — after any number of preceding would-block retries — is
surfaced immediately as a Typing error carrying that error's message,
with no further sleep or retry; before each retry it sleeps, with waits
1, 2, 4, ..., 64, 100, 100, ... ms (doubling, capped at 100 ms); it
allows at most 50 retries and, on exhausting the budget, returns a
Typing error naming the 50 retries.  The first conjunct instantiated at
k = 3 is the scenario: would-block on the first three attempts, success
on the fourth, yields exactly the sleeps 1 ms, 2 ms, 4 ms and an ok
result. -/
theorem flush_with_retry_correct (flush : Nat → Option (Int × String)) :
    (∀ k, k ≤ 50 → (∀ i, i < k → ∃ m, flush i = some (11, m)) → flush k = none →
      flush_with_retry flush =
        ⟨.ok (), (List.range k).map (fun i => min (2 ^ i) 100)⟩)
  ∧ (∀ k e m, k ≤ 50 → (∀ i, i < k → ∃ mm, flush i = some (11, mm)) →
      flush k = some (e, m) → e ≠ 11 →
      flush_with_retry flush =
        ⟨.error (.Typing m), (List.range k).map (fun i => min (2 ^ i) 100)⟩)
  ∧ (∀ mlast, (∀ i, i < 50 → ∃ m, flush i = some (11, m)) →
      flush 50 = some (11, mlast) →
      flush_with_retry flush =
        ⟨.error (.Typing ("Socket buffer full after 50 retries: " ++ mlast)),
         (List.range 50).map (fun i => min (2 ^ i) 100)⟩) := by
  refine ⟨?_, ?_, ?_⟩
  · intro k hk hwb hok
    unfold flush_with_retry
    rw [one_eq_min]
    have h := flushRetryAux_ok flush k 50 0 [] hk
      (fun i hi => by simpa using hwb i hi) (by simpa using hok)
    rw [h]
    simp
  · intro k e m hk hwb hbad hne
    unfold flush_with_retry
    rw [one_eq_min]
    have h := flushRetryAux_fatal flush k 50 0 [] e m hk
      (fun i hi => by simpa using hwb i hi) (by simpa using hbad) hne
    rw [h]
    simp
  · intro mlast hwb hlast
    unfold flush_with_retry
    rw [one_eq_min]
    have h := flushRetryAux_exhaust flush 50 0 [] mlast
      (fun i hi => by simpa using hwb i hi) (by simpa using hlast)
    rw [h]
    simp

/-- Witness for claim C3: the scenario run — would-block on the first
three flush attempts, success on the fourth — sleeps exactly 1 ms, 2 ms
and 4 ms and returns ok. -/
theorem flush_with_retry_correct_witness :
    flush_with_retry flushWB3 = ⟨.ok (), [1, 2, 4]⟩ := by
  have h := (flush_with_retry_correct flushWB3).1 3 (by omega)
    (fun i hi => ⟨"write would block", by simp [flushWB3, hi]⟩)
    (by simp [flushWB3])
  rw [h]
  decide

/-- Claim C9 counterexample: the first backoff wait performed is 1 ms,
not 2 ms — against an always-would-block flush schedule, the successive
waits begin 1, 2, 4, 8, 16, 32, 64, 100, which differs from the claimed
sequence 2, 4, 8, 16, 32, 64, 100, 100. -/
theorem backoff_first_wait_is_one_ms :
    (flush_with_retry alwaysWouldBlock).sleeps.take 8 =
      [1, 2, 4, 8, 16, 32, 64, 100] ∧
    ([1, 2, 4, 8, 16, 32, 64, 100] : List Nat) ≠
      [2, 4, 8, 16, 32, 64, 100, 100] := by
  constructor
  · decide
  · decide

/-- Claim C9 (amended): the waits before successive retries are
1, 2, 4, 8, 16, 32, 64, 100, 100, ... ms — the i-th wait (from 0) is
min (2 ^ i) 100, starting at 1 ms and capped at 100 ms; the value
quoted by the claim (2, 4, 8, ...) is the delay variable after each
doubling update, not the wait performed. -/
theorem backoff_wait_values :
    (flush_with_retry alwaysWouldBlock).sleeps =
      (List.range 50).map (fun i => min (2 ^ i) 100) ∧
    (flush_with_retry alwaysWouldBlock).sleeps.take 9 =
      [1, 2, 4, 8, 16, 32, 64, 100, 100] := by
  constructor
  · unfold flush_with_retry
    rw [one_eq_min]
    have h := flushRetryAux_exhaust alwaysWouldBlock 50 0 [] "write would block"
      (fun i _ => ⟨"write would block", rfl⟩) rfl
    rw [h]
    simp
  · decide

/-- Claim C5: `keysym_to_char` maps, in priority order, codes in
0x20..0x7e and 0xa0..0xff to the identical Unicode character, codes at
or above 0x1000000 through `char::from_u32` of code minus 0x1000000,
the special codes 0xff0d, 0xff09 and 0x20 to newline, tab and space,
and every other code to none; in particular 0x20 to space, 0x41 to A,
0x1000000 + 0xe9 to e-acute, 0xff0d to newline, and 0x00 to none. -/
theorem keysym_to_char_spec :
    (∀ n, 0x20 ≤ n → n ≤ 0x7e → keysym_to_char n = some (Char.ofNat n))
  ∧ (∀ n, 0xa0 ≤ n → n ≤ 0xff → keysym_to_char n = some (Char.ofNat n))
  ∧ (∀ n, 0x1000000 ≤ n → keysym_to_char n = charFromU32 (n - 0x1000000))
  ∧ keysym_to_char 0xff0d = some (Char.ofNat 10)
  ∧ keysym_to_char 0xff09 = some (Char.ofNat 9)
  ∧ keysym_to_char 0x20 = some ' '
  ∧ (∀ n, n < 0x1000000 → ¬(0x20 ≤ n ∧ n ≤ 0x7e) → ¬(0xa0 ≤ n ∧ n ≤ 0xff) →
      n ≠ 0xff0d → n ≠ 0xff09 → keysym_to_char n = none)
  ∧ keysym_to_char 0x41 = some 'A'
  ∧ keysym_to_char (0x1000000 + 0xe9) = some 'é'
  ∧ keysym_to_char 0x00 = none := by
  refine ⟨?_, ?_, ?_, by decide, by decide, by decide, ?_, by decide, by decide, by decide⟩
  · intro n h1 h2
    unfold keysym_to_char charFromU32
    rw [if_pos ⟨h1, h2⟩, if_pos (by omega)]
  · intro n h1 h2
    unfold keysym_to_char charFromU32
    rw [if_neg (by omega), if_pos ⟨h1, h2⟩, if_pos (by omega)]
  · intro n h
    unfold keysym_to_char
    rw [if_neg (by omega), if_neg (by omega), if_pos h]
  · intro n h h1 h2 h3 h4
    unfold keysym_to_char
    rw [if_neg h1, if_neg h2, if_neg (by omega), if_neg h3, if_neg h4,
      if_neg (by omega)]

/-- Witness for claim C5: the printable-ASCII conjunct applied at
keysym 0x61, yielding the letter a. -/
theorem keysym_to_char_spec_witness :
    keysym_to_char 0x61 = some (Char.ofNat 0x61) :=
  keysym_to_char_spec.1 0x61 (by decide) (by decide)

lemma levelHit_none_iff (ch : Char) (km : Keymap) (li kc : Nat) :
    ∀ (n s : Nat), levelHit ch km li kc (List.range' s n) = none ↔
      ∀ l, s ≤ l → l < s + n →
        symsHaveChar ch (km.key_get_syms_by_level kc li l) = false := by
  intro n
  induction n with
  | zero =>
    intro s
    simp only [List.range']
    simp [levelHit]
    intro l h1 h2
    omega
  | succ n ih =>
    intro s
    have hr : List.range' s (n + 1) = s :: List.range' (s + 1) n := rfl
    rw [hr]
    cases h : symsHaveChar ch (km.key_get_syms_by_level kc li s) with
    | true =>
      simp only [levelHit, h, if_true]
      constructor
      · intro hsome
        exact absurd hsome (by simp)
      · intro hall
        have h0 := hall s le_rfl (by omega)
        rw [h0] at h
        cases h
    | false =>
      simp only [levelHit, h, Bool.false_eq_true, if_false]
      rw [ih (s + 1)]
      constructor
      · intro hall l h1 h2
        rcases Nat.eq_or_lt_of_le h1 with heq | hlt
        · rw [← heq]
          exact h
        · exact hall l hlt (by omega)
      · intro hall l h1 h2
        exact hall l (by omega) (by omega)

lemma levelHit_some_iff (ch : Char) (km : Keymap) (li kc : Nat) :
    ∀ (n s l : Nat), levelHit ch km li kc (List.range' s n) = some l ↔
      (s ≤ l ∧ l < s + n ∧
       symsHaveChar ch (km.key_get_syms_by_level kc li l) = true ∧
       ∀ l', s ≤ l' → l' < l →
         symsHaveChar ch (km.key_get_syms_by_level kc li l') = false) := by
  intro n
  induction n with
  | zero =>
    intro s l
    simp only [List.range']
    simp [levelHit]
    omega
  | succ n ih =>
    intro s l
    have hr : List.range' s (n + 1) = s :: List.range' (s + 1) n := rfl
    rw [hr]
    cases h : symsHaveChar ch (km.key_get_syms_by_level kc li s) with
    | true =>
      simp only [levelHit, h, if_true]
      constructor
      · intro hsome
        have hls : l = s := by
          have := Option.some_inj.mp hsome
          omega
        subst hls
        refine ⟨le_rfl, by omega, h, ?_⟩
        intro l' h1 h2
        omega
      · intro ⟨h1, h2, h3, hmin⟩
        rcases Nat.eq_or_lt_of_le h1 with heq | hlt
        · rw [heq]
        · have := hmin s le_rfl hlt
          rw [this] at h
          cases h
    | false =>
      simp only [levelHit, h, Bool.false_eq_true, if_false]
      rw [ih (s + 1)]
      constructor
      · intro ⟨h1, h2, h3, hmin⟩
        refine ⟨by omega, by omega, h3, ?_⟩
        intro l' ha hb
        rcases Nat.eq_or_lt_of_le ha with heq | hlt
        · rw [← heq]
          exact h
        · exact hmin l' hlt hb
      · intro ⟨h1, h2, h3, hmin⟩
        have hne : l ≠ s := by
          intro heq
          rw [heq] at h3
          rw [h3] at h
          cases h
        refine ⟨by omega, by omega, h3, ?_⟩
        intro l' ha hb
        exact hmin l' (by omega) hb

lemma levelFor_none_iff (ch : Char) (km : Keymap) (li kc : Nat) :
    levelFor ch km li kc = none ↔
      (km.num_layouts_for_key kc ≤ li ∨
       ∀ l, l < km.num_levels_for_key kc li →
         symsHaveChar ch (km.key_get_syms_by_level kc li l) = false) := by
  unfold levelFor
  by_cases h : li < km.num_layouts_for_key kc
  · rw [if_pos h, List.range_eq_range', levelHit_none_iff]
    constructor
    · intro hall
      right
      intro l hl
      exact hall l (by omega) (by omega)
    · intro hall l h1 h2
      rcases hall with hle | hall
      · omega
      · exact hall l (by omega)
  · rw [if_neg h]
    simp
    left
    omega

lemma levelFor_some_iff (ch : Char) (km : Keymap) (li kc l : Nat) :
    levelFor ch km li kc = some l ↔
      (li < km.num_layouts_for_key kc ∧
       l < km.num_levels_for_key kc li ∧
       symsHaveChar ch (km.key_get_syms_by_level kc li l) = true ∧
       ∀ l', l' < l →
         symsHaveChar ch (km.key_get_syms_by_level kc li l') = false) := by
  unfold levelFor
  by_cases h : li < km.num_layouts_for_key kc
  · rw [if_pos h, List.range_eq_range', levelHit_some_iff]
    constructor
    · intro ⟨h1, h2, h3, hmin⟩
      exact ⟨h, by omega, h3, fun l' hl' => hmin l' (by omega) hl'⟩
    · intro ⟨_, h2, h3, hmin⟩
      exact ⟨by omega, by omega, h3, fun l' _ hl' => hmin l' hl'⟩
  · rw [if_neg h]
    simp
    intro hlt
    omega

lemma keycodeScan_none_iff (ch : Char) (km : Keymap) (li : Nat) :
    ∀ (n s : Nat), keycodeScan ch km li (List.range' s n) = none ↔
      ∀ kc, s ≤ kc → kc < s + n → levelFor ch km li kc = none := by
  intro n
  induction n with
  | zero =>
    intro s
    simp only [List.range']
    simp [keycodeScan]
    intro kc h1 h2
    omega
  | succ n ih =>
    intro s
    have hr : List.range' s (n + 1) = s :: List.range' (s + 1) n := rfl
    rw [hr]
    cases h : levelFor ch km li s with
    | some l =>
      simp only [keycodeScan, h]
      constructor
      · intro hsome
        exact absurd hsome (by simp)
      · intro hall
        have h0 := hall s le_rfl (by omega)
        rw [h0] at h
        cases h
    | none =>
      simp only [keycodeScan, h]
      rw [ih (s + 1)]
      constructor
      · intro hall kc h1 h2
        rcases Nat.eq_or_lt_of_le h1 with heq | hlt
        · rw [← heq]
          exact h
        · exact hall kc hlt (by omega)
      · intro hall kc h1 h2
        exact hall kc (by omega) (by omega)

lemma keycodeScan_some_iff (ch : Char) (km : Keymap) (li : Nat) :
    ∀ (n s : Nat) (r : Nat × Bool),
      keycodeScan ch km li (List.range' s n) = some r ↔
      ∃ kc l, s ≤ kc ∧ kc < s + n ∧ levelFor ch km li kc = some l ∧
        r = (u32sub8 kc, l == 1) ∧
        ∀ kc', s ≤ kc' → kc' < kc → levelFor ch km li kc' = none := by
  intro n
  induction n with
  | zero =>
    intro s r
    simp only [List.range']
    simp [keycodeScan]
    intro kc l h1 h2
    omega
  | succ n ih =>
    intro s r
    have hr : List.range' s (n + 1) = s :: List.range' (s + 1) n := rfl
    rw [hr]
    cases h : levelFor ch km li s with
    | some l0 =>
      simp only [keycodeScan, h]
      constructor
      · intro hsome
        have hre := Option.some_inj.mp hsome
        exact ⟨s, l0, le_rfl, by omega, h, hre.symm, fun kc' h1 h2 => by omega⟩
      · intro ⟨kc, l, h1, h2, hlv, hre, hmin⟩
        rcases Nat.eq_or_lt_of_le h1 with heq | hlt
        · rw [← heq] at hlv
          rw [hlv] at h
          have : l0 = l := by
            have := Option.some_inj.mp h.symm
            omega
          rw [hre, ← heq, this]
        · have h0 := hmin s le_rfl hlt
          rw [h0] at h
          cases h
    | none =>
      simp only [keycodeScan, h]
      rw [ih (s + 1)]
      constructor
      · intro ⟨kc, l, h1, h2, hlv, hre, hmin⟩
        refine ⟨kc, l, by omega, by omega, hlv, hre, ?_⟩
        intro kc' ha hb
        rcases Nat.eq_or_lt_of_le ha with heq | hlt
        · rw [← heq]
          exact h
        · exact hmin kc' hlt hb
      · intro ⟨kc, l, h1, h2, hlv, hre, hmin⟩
        have hne : kc ≠ s := by
          intro heq
          rw [heq] at hlv
          rw [hlv] at h
          cases h
        refine ⟨kc, l, by omega, by omega, hlv, hre, ?_⟩
        intro kc' ha hb
        exact hmin kc' (by omega) hb

/-- Claim C4: with a compiled keymap, `find_keycode_for_char` scans
keycodes in ascending order, considering only the selected layout index,
and levels in ascending order; the first keycode/level whose keysym list
contains the requested character wins, and the function returns the
matched xkb keycode minus 8 (as u32) paired with needs-shift, true
exactly when the matching level index is 1; `CharNotFound` is returned
exactly when no keycode/level in range matches. -/
theorem find_keycode_for_char_spec (ch : Char) (km : Keymap) (li : Nat) :
    (find_keycode_for_char ch km li = .error (.CharNotFound ch) ↔
      ∀ kc, km.min_keycode ≤ kc → kc ≤ km.max_keycode →
        li < km.num_layouts_for_key kc →
        ∀ l, l < km.num_levels_for_key kc li →
          symsHaveChar ch (km.key_get_syms_by_level kc li l) = false)
  ∧ (∀ kc l, km.min_keycode ≤ kc → kc ≤ km.max_keycode →
      li < km.num_layouts_for_key kc →
      l < km.num_levels_for_key kc li →
      symsHaveChar ch (km.key_get_syms_by_level kc li l) = true →
      (∀ kc' l', km.min_keycode ≤ kc' → kc' < kc →
        li < km.num_layouts_for_key kc' →
        l' < km.num_levels_for_key kc' li →
        symsHaveChar ch (km.key_get_syms_by_level kc' li l') = false) →
      (∀ l', l' < l →
        symsHaveChar ch (km.key_get_syms_by_level kc li l') = false) →
      find_keycode_for_char ch km li = .ok (u32sub8 kc, l == 1)) := by
  constructor
  · have hiff : find_keycode_for_char ch km li = .error (.CharNotFound ch) ↔
        keycodeScan ch km li (keycodeRange km.min_keycode km.max_keycode) = none := by
      unfold find_keycode_for_char
      cases hscan : keycodeScan ch km li (keycodeRange km.min_keycode km.max_keycode) with
      | some r => simp
      | none => simp
    rw [hiff]
    unfold keycodeRange
    rw [keycodeScan_none_iff]
    constructor
    · intro hall kc h1 h2 h3 l hl
      have hn := hall kc h1 (by omega)
      rw [levelFor_none_iff] at hn
      rcases hn with hle | hn
      · omega
      · exact hn l hl
    · intro hall kc h1 h2
      rw [levelFor_none_iff]
      by_cases hl : li < km.num_layouts_for_key kc
      · right
        intro l hlv
        exact hall kc h1 (by omega) hl l hlv
      · left
        omega
  · intro kc l h1 h2 hlay hlev hsym hmin hlmin
    have hsome : keycodeScan ch km li (keycodeRange km.min_keycode km.max_keycode) =
        some (u32sub8 kc, l == 1) := by
      unfold keycodeRange
      rw [keycodeScan_some_iff]
      refine ⟨kc, l, h1, by omega, ?_, rfl, ?_⟩
      · rw [levelFor_some_iff]
        exact ⟨hlay, hlev, hsym, hlmin⟩
      · intro kc' ha hb
        rw [levelFor_none_iff]
        by_cases hl : li < km.num_layouts_for_key kc'
        · right
          intro l' hl'
          exact hmin kc' l' ha hb hl hl'
        · left
          omega
    unfold find_keycode_for_char
    rw [hsome]

/-- Witness for claim C4: in the shift-capable keymap `kmShift`, the
character A resolves through the first-match conjunct at xkb keycode 38,
level 1, to evdev keycode 30 with needs-shift true. -/
theorem find_keycode_for_char_spec_witness :
    find_keycode_for_char 'A' kmShift 0 = .ok (30, true) := by
  have hmin : ∀ kc' l', kmShift.min_keycode ≤ kc' → kc' < 38 →
      0 < kmShift.num_layouts_for_key kc' → l' < kmShift.num_levels_for_key kc' 0 →
      symsHaveChar 'A' (kmShift.key_get_syms_by_level kc' 0 l') = false := by
    intro kc' l' _ hlt _ _
    show symsHaveChar 'A' (if kc' = 38 then (if l' = 0 then [0x61] else [0x41]) else []) = false
    rw [if_neg (by omega)]
    decide
  have hlmin : ∀ l', l' < 1 →
      symsHaveChar 'A' (kmShift.key_get_syms_by_level 38 0 l') = false := by
    intro l' hl'
    have h0 : l' = 0 := by omega
    rw [h0]
    decide
  have h := (find_keycode_for_char_spec 'A' kmShift 0).2 38 1 (by decide) (by decide)
    (by decide) (by decide) (by decide) hmin hlmin
  rw [h]
  decide

lemma u32sub8_no_wrap (raw : Nat) (h8 : 8 ≤ raw) (hlt : raw < 4294967296) :
    u32sub8 raw = raw - 8 := by
  unfold u32sub8
  have he : raw + (4294967296 - 8) = (raw - 8) + 4294967296 := by omega
  rw [he, Nat.add_mod_right, Nat.mod_eq_of_lt (by omega)]

/-- Claim C10: the conversion to an evdev keycode is the u32 subtraction
of 8 from the matched xkb keycode; when every keycode the scan can match
is at least 8 (all keycodes in range at least 8) the subtraction is the
true subtraction, free of underflow — while for a keymap whose matching
keycode is below 8 (`kmLow`, keycode 5) the subtraction wraps around to
4294967293. -/
theorem find_keycode_evdev_offset :
    (∀ (ch : Char) (km : Keymap) (li kc : Nat) (s : Bool),
      8 ≤ km.min_keycode → km.max_keycode < 4294967296 →
      find_keycode_for_char ch km li = .ok (kc, s) →
      km.min_keycode ≤ kc + 8 ∧ kc + 8 ≤ km.max_keycode)
  ∧ find_keycode_for_char 'a' kmLow 0 = .ok (4294967293, false) := by
  constructor
  · intro ch km li kc s h8 hmax hok
    unfold find_keycode_for_char keycodeRange at hok
    rcases hscan : keycodeScan ch km li
        (List.range' km.min_keycode (km.max_keycode + 1 - km.min_keycode)) with _ | r
    · rw [hscan] at hok
      simp at hok
    · rw [hscan] at hok
      simp only [Except.ok.injEq] at hok
      rw [keycodeScan_some_iff] at hscan
      obtain ⟨raw, l, hs, hlt2, hlv, hre, hmin⟩ := hscan
      have hkc : kc = u32sub8 raw := by
        rw [hok] at hre
        rw [Prod.mk.injEq] at hre
        exact hre.1
      have hraw : 8 ≤ raw := by omega
      have hrmax : raw ≤ km.max_keycode := by omega
      have hsub : u32sub8 raw = raw - 8 :=
        u32sub8_no_wrap raw hraw (by omega)
      have hkc8 : kc + 8 = raw := by
        rw [hkc, hsub]
        omega
      constructor
      · omega
      · omega
  · decide

/-- Witness for claim C10: applying the no-underflow conjunct to the
keymap `kmShift`, whose keycodes all lie at or above 8; the match for A
is at xkb keycode 38 and the reported evdev keycode 30 satisfies
30 + 8 = 38, a keycode inside the keymap range — no wraparound. -/
theorem find_keycode_evdev_offset_witness :
    kmShift.min_keycode ≤ 30 + 8 ∧ 30 + 8 ≤ kmShift.max_keycode :=
  find_keycode_evdev_offset.1 'A' kmShift 0 30 true (by decide) (by decide) (by decide)

lemma releaseLoop_eq : ∀ (l : List Nat) (s : Session),
    releaseLoop s l = { s with events := s.events ++ releaseEvents l } := by
  intro l
  induction l with
  | nil =>
    intro s
    simp [releaseLoop, releaseEvents]
  | cons kc rest ih =>
    intro s
    rw [releaseLoop, ih, releaseEvents]
    simp [release_key_internal]

lemma release_modifiers_eq (s : Session) :
    release_modifiers s =
      (.ok (), { s with held_modifiers := [],
                        events := s.events ++ releaseEvents s.held_modifiers.reverse }) := by
  unfold release_modifiers
  rw [releaseLoop_eq]

lemma close_not_closed (s : Session) (h : s.closed = false) :
    close s = { s with closed := true, held_modifiers := [],
                       events := s.events ++ releaseEvents s.held_modifiers.reverse ++
                         [Event.stopEmulating, Event.disconnect] } := by
  unfold close
  rw [if_neg (by rw [h]; simp)]
  simp only [release_modifiers_eq, stop_emulating]
  simp

lemma close_of_closed (s : Session) (h : s.closed = true) : close s = s := by
  unfold close
  rw [if_pos h]

lemma closed_close (s : Session) : (close s).closed = true := by
  cases h : s.closed with
  | true => rw [close_of_closed s h, h]
  | false => rw [close_not_closed s h]

/-- Claim C8: closing a session twice has the same observable effect as
closing it once — a second `close` (including the one `Drop` runs after
an explicit close) returns the state unchanged: no modifier release, no
stop-emulating, no disconnect. -/
theorem close_idempotent (s : Session) :
    close (close s) = close s ∧ dropSession (close s) = close s := by
  have h := close_of_closed (close s) (closed_close s)
  exact ⟨h, h⟩

/-- Claim C1 counterexample: executing
`[ModifierHold "ctrl", Key "nosuchkey"]` on a fresh session fails at the
second action with `UnknownKey`, and `execute_actions` returns with the
held-modifier stack still containing the ctrl keycode 29 and no release
event emitted — the cleanup does not run on the error path, so the
stack is not empty and nothing was released. -/
theorem execute_actions_error_keeps_modifiers :
    (execute_actions sFallback [.modifierHold "ctrl", .key "nosuchkey"]).1 =
      .error (.UnknownKey "nosuchkey") ∧
    (execute_actions sFallback [.modifierHold "ctrl", .key "nosuchkey"]).2.held_modifiers =
      [29] ∧
    (execute_actions sFallback [.modifierHold "ctrl", .key "nosuchkey"]).2.events =
      [Event.key 29 .press, Event.frame] := by
  refine ⟨by decide, by decide, by decide⟩

/-- Claim C1 (amended): when every action succeeds, `execute_actions`
releases all held modifiers in the exact reverse of the order they were
held and leaves the stack empty; when an action fails partway through,
`execute_actions` propagates the error without performing any release —
the held modifiers stay on the stack.  They are instead released at
session teardown: `close` on a not-yet-closed session drains the stack
in reverse order (followed by stop-emulating and disconnect) and leaves
it empty. -/
theorem execute_actions_cleanup :
    (∀ (s : Session) (actions : List EiAction) (s' : Session),
      execute_actions s actions = (.ok (), s') →
      s'.held_modifiers = [] ∧
      ∃ s₁, executeLoop s actions = (.ok (), s₁) ∧
        s'.events = s₁.events ++ releaseEvents s₁.held_modifiers.reverse)
  ∧ (∀ (s : Session) (actions : List EiAction) (e : EiTypeError) (s' : Session),
      execute_actions s actions = (.error e, s') →
      executeLoop s actions = (.error e, s'))
  ∧ (∀ s : Session, s.closed = false →
      (close s).held_modifiers = [] ∧
      (close s).events = s.events ++ releaseEvents s.held_modifiers.reverse ++
        [Event.stopEmulating, Event.disconnect]) := by
  refine ⟨?_, ?_, ?_⟩
  · intro s actions s' h
    unfold execute_actions at h
    rcases hL : executeLoop s actions with ⟨r, s₁⟩
    rw [hL] at h
    cases r with
    | ok u =>
      have h2 : release_modifiers s₁ = (.ok (), s') := h
      rw [release_modifiers_eq] at h2
      have hs' : s' =
          { s₁ with
            held_modifiers := [],
            events := s₁.events ++ releaseEvents s₁.held_modifiers.reverse } := by
        have h3 := congrArg Prod.snd h2
        simpa using h3.symm
      refine ⟨by rw [hs'], s₁, ?_, by rw [hs']⟩
      rfl
    | error e =>
      have h2 : ((Except.error e : Except EiTypeError Unit), s₁) = (.ok (), s') := h
      simp at h2
  · intro s actions e s' h
    unfold execute_actions at h
    rcases hL : executeLoop s actions with ⟨r, s₁⟩
    rw [hL] at h
    cases r with
    | ok u =>
      have h2 : release_modifiers s₁ = (.error e, s') := h
      rw [release_modifiers_eq] at h2
      simp at h2
    | error e' =>
      have h2 : ((Except.error e' : Except EiTypeError Unit), s₁) = (.error e, s') := h
      exact h2
  · intro s h
    rw [close_not_closed s h]
    exact ⟨rfl, rfl⟩

/-- Witness for claim C1: a successful run holding ctrl — the success
conjunct applied to `sFallback` with the single action
`ModifierHold "ctrl"`: the final stack is empty and the trace ends with
the release of the held modifier. -/
theorem execute_actions_cleanup_witness :
    (execute_actions sFallback [EiAction.modifierHold "ctrl"]).2.held_modifiers = [] ∧
    (execute_actions sFallback [EiAction.modifierHold "ctrl"]).2.events =
      sCtrlHeld.events ++ releaseEvents sCtrlHeld.held_modifiers.reverse := by
  have h := execute_actions_cleanup.1 sFallback [EiAction.modifierHold "ctrl"]
    (execute_actions sFallback [EiAction.modifierHold "ctrl"]).2 rfl
  obtain ⟨h1, s₁, hL, hev⟩ := h
  have h2 : ((Except.ok () : Except EiTypeError Unit), sCtrlHeld) = (.ok (), s₁) := by
    rw [← hL]
    rfl
  have hs : sCtrlHeld = s₁ := congrArg Prod.snd h2
  refine ⟨h1, ?_⟩
  rw [hs]
  exact hev

lemma type_char_keymap_err (s : Session) (km : Keymap) (ch : Char) (e : EiTypeError)
    (hkm : s.keymap = some km)
    (hf : find_keycode_for_char ch km s.layout_index = .error e) :
    type_char s ch = (.error e, s) := by
  unfold type_char
  rw [hkm]
  simp only [hf]

lemma type_char_fallback_err (s : Session) (ch : Char)
    (hkm : s.keymap = none)
    (hl : keyToKeycode (String.singleton (to_ascii_lowercase ch)) = none) :
    type_char s ch = (.error (.CharNotFound ch), s) := by
  unfold type_char
  rw [hkm]
  simp only [hl]

/-- Claim C2: a failed resolution of a symbolic key or modifier name
(UnknownKey) or of a character (CharNotFound) aborts the operation
immediately and returns the error with the session state — events,
held-modifier stack, everything — exactly as it was: resolution
failures have no side effects. -/
theorem resolution_failure_pure :
    (∀ (s : Session) (name : String), keyToKeycode (lowerString name) = none →
      hold_modifier s name = (.error (.UnknownKey name), s))
  ∧ (∀ (s : Session) (name : String), keyToKeycode (lowerString name) = none →
      press_key s name = (.error (.UnknownKey name), s))
  ∧ (∀ (s : Session) (name : String), keyToKeycode (lowerString name) = none →
      press_modifier s name = (.error (.UnknownKey name), s))
  ∧ (∀ (s : Session) (km : Keymap) (ch : Char) (e : EiTypeError),
      s.keymap = some km →
      find_keycode_for_char ch km s.layout_index = .error e →
      type_char s ch = (.error e, s))
  ∧ (∀ (s : Session) (ch : Char), s.keymap = none →
      keyToKeycode (String.singleton (to_ascii_lowercase ch)) = none →
      type_char s ch = (.error (.CharNotFound ch), s)) := by
  refine ⟨?_, ?_, ?_, ?_, ?_⟩
  · intro s name h
    unfold hold_modifier
    rw [h]
  · intro s name h
    unfold press_key
    rw [h]
  · intro s name h
    unfold press_modifier
    rw [h]
  · intro s km ch e hkm hf
    exact type_char_keymap_err s km ch e hkm hf
  · intro s ch hkm hl
    exact type_char_fallback_err s ch hkm hl

/-- Witness for claim C2: resolving the unknown name nonexistent fails
with UnknownKey and returns the session unchanged. -/
theorem resolution_failure_pure_witness :
    hold_modifier sFallback "nonexistent" =
      (.error (.UnknownKey "nonexistent"), sFallback) :=
  resolution_failure_pure.1 sFallback "nonexistent" (by decide)

lemma shiftWrapTap_eq (s : Session) (ns : Bool) (kc : Nat) :
    shiftWrapTap s ns kc =
      { s with
        events := s.events ++
          (if ns then
            [Event.key 42 .press, Event.frame] ++ tapEvents kc ++
              [Event.key 42 .released, Event.frame]
          else tapEvents kc) } := by
  have hshift : (keyToKeycode "shift").getD 42 = 42 := by decide
  cases ns with
  | true =>
    simp [shiftWrapTap, hshift, press_key_internal, tap_key_internal,
      release_key_internal, tapEvents]
  | false =>
    simp [shiftWrapTap, press_key_internal, tap_key_internal,
      release_key_internal, tapEvents]

lemma shiftWrapTap_seq (s : Session) (ns : Bool) (kc : Nat) :
    (shiftWrapTap s ns kc).sequence = s.sequence := by
  rw [shiftWrapTap_eq]

lemma type_char_fallback_ok (s : Session) (ch : Char) (kc : Nat)
    (hkm : s.keymap = none)
    (hl : keyToKeycode (String.singleton (to_ascii_lowercase ch)) = some kc) :
    (type_char s ch).1 = .ok () ∧
    (type_char s ch).2.events = s.events ++
      (if ch.isUpper then
        [Event.key 42 .press, Event.frame] ++ tapEvents kc ++
          [Event.key 42 .released, Event.frame]
      else tapEvents kc) := by
  unfold type_char
  rw [hkm]
  simp only [hl]
  rw [shiftWrapTap_eq]
  exact ⟨trivial, rfl⟩

lemma lookupKey_ascii : ∀ (l : List (String × Nat)) (s : String) (v : Nat),
    l.all (fun p => p.1.data.all (fun c => decide (c.toNat ≤ 127))) = true →
    lookupKey l s = some v →
    s.data.all (fun c => decide (c.toNat ≤ 127)) = true := by
  intro l
  induction l with
  | nil =>
    intro s v _ h
    exact absurd h (by simp [lookupKey])
  | cons p rest ih =>
    intro s v hall h
    obtain ⟨k, w⟩ := p
    rw [List.all_cons, Bool.and_eq_true] at hall
    have hk := hall.1
    have hrest := hall.2
    unfold lookupKey at h
    by_cases hs : s = k
    · rw [hs]
      exact hk
    · rw [if_neg hs] at h
      exact ih s v hrest h

lemma keyTable_ascii :
    keyTable.all (fun p => p.1.data.all (fun c => decide (c.toNat ≤ 127))) = true := by
  decide

lemma to_ascii_lowercase_nonascii (ch : Char) (h : 127 < ch.toNat) :
    to_ascii_lowercase ch = ch := by
  unfold to_ascii_lowercase
  rw [if_neg (by omega)]

lemma fallback_lookup_nonascii (ch : Char) (h : 127 < ch.toNat) :
    keyToKeycode (String.singleton (to_ascii_lowercase ch)) = none := by
  cases hl : keyToKeycode (String.singleton (to_ascii_lowercase ch)) with
  | none => rfl
  | some v =>
    exfalso
    have ha := lookupKey_ascii keyTable _ v keyTable_ascii hl
    rw [to_ascii_lowercase_nonascii ch h] at ha
    have hd : (String.singleton ch).data = [ch] := rfl
    rw [hd] at ha
    simp at ha
    omega

/-- Claim C6 counterexample: with no compiled keymap, `type_char` on the
uppercase letter A does not fail with `CharNotFound` — it succeeds,
emitting shift press, a tap of the a key (keycode 30), and shift
release, because the character is lowercased before the table lookup
and shift is derived from `is_ascii_uppercase`. -/
theorem fallback_uppercase_succeeds :
    (type_char sFallback 'A').1 = .ok () ∧
    (type_char sFallback 'A').2.events =
      [Event.key 42 .press, Event.frame, Event.key 30 .press, Event.frame,
       Event.key 30 .released, Event.frame, Event.key 42 .released, Event.frame] := by
  refine ⟨by decide, by decide⟩

/-- Claim C6 (amended): with no compiled keymap, `type_char` ASCII-
lowercases the character and looks it up among the single-character
entries of the static key table; a character whose lowercased form has
no entry fails with `CharNotFound`, and in particular every character
outside ASCII fails with `CharNotFound`; a character whose lowercased
form is in the table succeeds — uppercase ASCII letters succeed with
the tap wrapped in shift press/release rather than failing. -/
theorem fallback_type_char_spec :
    (∀ (s : Session) (ch : Char), s.keymap = none →
      keyToKeycode (String.singleton (to_ascii_lowercase ch)) = none →
      type_char s ch = (.error (.CharNotFound ch), s))
  ∧ (∀ (s : Session) (ch : Char) (kc : Nat), s.keymap = none →
      keyToKeycode (String.singleton (to_ascii_lowercase ch)) = some kc →
      (type_char s ch).1 = .ok () ∧
      (type_char s ch).2.events = s.events ++
        (if ch.isUpper then
          [Event.key 42 .press, Event.frame] ++ tapEvents kc ++
            [Event.key 42 .released, Event.frame]
        else tapEvents kc))
  ∧ (∀ (s : Session) (ch : Char), s.keymap = none → 127 < ch.toNat →
      type_char s ch = (.error (.CharNotFound ch), s)) := by
  refine ⟨?_, ?_, ?_⟩
  · intro s ch hkm hl
    exact type_char_fallback_err s ch hkm hl
  · intro s ch kc hkm hl
    exact type_char_fallback_ok s ch kc hkm hl
  · intro s ch hkm hna
    exact type_char_fallback_err s ch hkm (fallback_lookup_nonascii ch hna)

/-- Witness for claim C6: the success conjunct applied to the uppercase
letter A, whose lowercase form a maps to keycode 30; the trace is the
shift-wrapped tap. -/
theorem fallback_type_char_spec_witness :
    (type_char sFallback 'A').1 = .ok () ∧
    (type_char sFallback 'A').2.events = sFallback.events ++
      (if Char.isUpper 'A' then
        [Event.key 42 .press, Event.frame] ++ tapEvents 30 ++
          [Event.key 42 .released, Event.frame]
      else tapEvents 30) :=
  fallback_type_char_spec.2.1 sFallback 'A' 30 rfl (by decide)

lemma type_char_seq (s : Session) (ch : Char) :
    (type_char s ch).2.sequence = s.sequence := by
  unfold type_char
  split
  · split
    · rfl
    · exact shiftWrapTap_seq _ _ _
  · split
    · exact shiftWrapTap_seq _ _ _
    · rfl

lemma type_text_seq : ∀ (l : List Char) (s : Session),
    (type_text s l).2.sequence = s.sequence := by
  intro l
  induction l with
  | nil => intro s; rfl
  | cons ch rest ih =>
    intro s
    unfold type_text
    rcases ht : type_char s ch with ⟨r, s'⟩
    have hs' : s'.sequence = s.sequence := by
      have h := type_char_seq s ch
      rw [ht] at h
      exact h
    cases r with
    | ok u =>
      show (type_text s' rest).2.sequence = s.sequence
      rw [ih s']
      exact hs'
    | error e =>
      exact hs'

lemma press_key_seq (s : Session) (name : String) :
    (press_key s name).2.sequence = s.sequence := by
  unfold press_key
  cases h : keyToKeycode (lowerString name) with
  | none => rfl
  | some kc => rfl

lemma hold_modifier_seq (s : Session) (name : String) :
    (hold_modifier s name).2.sequence = s.sequence := by
  unfold hold_modifier
  cases h : keyToKeycode (lowerString name) with
  | none => rfl
  | some kc => rfl

lemma press_modifier_seq (s : Session) (name : String) :
    (press_modifier s name).2.sequence = s.sequence := by
  unfold press_modifier
  cases h : keyToKeycode (lowerString name) with
  | none => rfl
  | some kc => rfl

lemma execAction_seq (s : Session) (a : EiAction) :
    (execAction s a).2.sequence = s.sequence := by
  cases a with
  | type t => exact type_text_seq t.data s
  | key n => exact press_key_seq s n
  | modifierHold n => exact hold_modifier_seq s n
  | modifierPress n => exact press_modifier_seq s n

lemma executeLoop_seq : ∀ (actions : List EiAction) (s : Session),
    (executeLoop s actions).2.sequence = s.sequence := by
  intro actions
  induction actions with
  | nil => intro s; rfl
  | cons a rest ih =>
    intro s
    unfold executeLoop
    rcases ha : execAction s a with ⟨r, s'⟩
    have hs' : s'.sequence = s.sequence := by
      have h := execAction_seq s a
      rw [ha] at h
      exact h
    cases r with
    | ok u =>
      show (executeLoop s' rest).2.sequence = s.sequence
      rw [ih s']
      exact hs'
    | error e =>
      exact hs'

lemma execute_actions_seq (s : Session) (actions : List EiAction) :
    (execute_actions s actions).2.sequence = s.sequence := by
  unfold execute_actions
  rcases hL : executeLoop s actions with ⟨r, s₁⟩
  have hs₁ : s₁.sequence = s.sequence := by
    have h := executeLoop_seq actions s
    rw [hL] at h
    exact h
  cases r with
  | ok u =>
    show (release_modifiers s₁).2.sequence = s.sequence
    rw [release_modifiers_eq]
    exact hs₁
  | error e =>
    exact hs₁

lemma close_seq (s : Session) : (close s).sequence = s.sequence := by
  cases h : s.closed with
  | true => rw [close_of_closed s h]
  | false => rw [close_not_closed s h]

lemma frameTimestamps_some_eq (t0 : Nat) :
    ∀ clocks : List Nat, frameTimestamps (some t0) clocks =
      (clocks.map (fun c => c - t0), some t0) := by
  intro clocks
  induction clocks with
  | nil => rfl
  | cons c cs ih => simp [frameTimestamps, get_timestamp, ih]

lemma chain_sub (t0 : Nat) (clocks : List Nat) (h : List.Chain' (· ≤ ·) clocks) :
    List.Chain' (· ≤ ·) (clocks.map (fun c => c - t0)) := by
  rw [List.chain'_map]
  exact h.imp (fun a b hab => Nat.sub_le_sub_right hab t0)

/-- Claim C7 counterexample: the timestamp epoch is a process-wide
static, not per-session.  A first session whose frames are committed at
monotonic clock readings 10 and 50 carries timestamps 0 and 40 and
leaves the epoch cell at 10; `from_stream` initializes a new session's
sequence counter to 1 but never touches the epoch cell, so a second
session committing a frame at clock 100 carries timestamp 90, not 0 —
creating a new session does not reset the timestamps. -/
theorem timestamp_epoch_not_reset :
    (frameTimestamps none [10, 50]).1 = [0, 40] ∧
    (frameTimestamps none [10, 50]).2 = some 10 ∧
    (from_stream_init none 0).sequence = 1 ∧
    (frameTimestamps (frameTimestamps none [10, 50]).2 [100]).1 = [90] ∧
    (90 : Nat) ≠ 0 := by
  refine ⟨by decide, by decide, rfl, by decide, by decide⟩

/-- Claim C7 (amended): within one session the frame timestamps are
monotonically non-decreasing for any monotone clock, and the sequence
counter is non-decreasing — `start_emulating` increments it and no
sequencer operation or close changes it; creating a new session resets
the sequence counter to 1, but the timestamp epoch, once set, persists
unchanged through any further run (it is process-wide, not reset by a
new session). -/
theorem session_counters_monotone :
    (∀ (start : Option Nat) (clocks : List Nat), List.Chain' (· ≤ ·) clocks →
      List.Chain' (· ≤ ·) (frameTimestamps start clocks).1)
  ∧ (∀ s : Session, s.sequence ≤ (start_emulating s).sequence)
  ∧ (∀ (s : Session) (actions : List EiAction),
      (execute_actions s actions).2.sequence = s.sequence ∧
      (close s).sequence = s.sequence)
  ∧ (∀ (km : Option Keymap) (li : Nat), (from_stream_init km li).sequence = 1)
  ∧ (∀ (t0 : Nat) (clocks : List Nat),
      (frameTimestamps (some t0) clocks).2 = some t0) := by
  refine ⟨?_, ?_, ?_, ?_, ?_⟩
  · intro start clocks hc
    cases start with
    | some t0 =>
      rw [frameTimestamps_some_eq]
      exact chain_sub t0 clocks hc
    | none =>
      cases clocks with
      | nil => simp [frameTimestamps]
      | cons c cs =>
        have he : (frameTimestamps none (c :: cs)).1 =
            (c - c) :: cs.map (fun x => x - c) := by
          simp [frameTimestamps, get_timestamp, frameTimestamps_some_eq]
        rw [he, List.chain'_cons']
        constructor
        · intro b _
          omega
        · exact chain_sub c cs hc.tail
  · intro s
    show s.sequence ≤ s.sequence + 1
    omega
  · intro s actions
    exact ⟨execute_actions_seq s actions, close_seq s⟩
  · intro km li
    rfl
  · intro t0 clocks
    rw [frameTimestamps_some_eq]

/-- Witness for claim C7: the monotonicity conjunct applied to the
monotone clock list 3, 5, 5 with an uninitialized epoch — the resulting
timestamps form a non-decreasing chain. -/
theorem session_counters_monotone_witness :
    List.Chain' (fun a b => a ≤ b) (frameTimestamps none [3, 5, 5]).1 :=
  session_counters_monotone.1 none [3, 5, 5]
    (List.Chain'.cons (by omega) (List.Chain'.cons (by omega) (List.chain'_singleton 5)))
